import Mathlib

/-!
Verification development for `detprob.py` (gwdet): a shallow embedding of the
projection-factor distribution (`pdet`), the detection-probability pipeline
(`detectability`), their cache-file naming, lazy/cached construction, the
parallel/sequential grid assembly, and the regular-grid interpolant, together
with theorems settling the specification claims.

Conventions of the embedding:
* Python floats are modelled as `ℚ` (the claims under study are structural,
  not floating-point claims); angles and trigonometry (`montecarlo_samples`)
  are modelled over `ℝ`.
* Python's `str(...)` applied to a numeric parameter when a cache filename is
  assembled is modelled by `toString` on the modelled value.  No theorem below
  depends on the concrete digits produced, only on the fact that the same
  value yields the same string and that stated parameters appear in the name.
* Fallible Python statements (failed `assert`, `TypeError`, `AttributeError`,
  `NameError`) are modelled with `Except PyError`.
* The filesystem visible to `os.path.isfile` / `pickle.dump` / `pickle.load`
  is modelled as an association list from filenames to stored artifacts, and a
  pickle round-trip returns the stored value unchanged.
-/

/-- Python exception outcomes that `detprob.py` can produce, with the message
of the corresponding `assert`/attribute access. -/
inductive PyError : Type
  | typeError (msg : String)
  | assertionError (msg : String)
  | attributeError (msg : String)
  | nameError (msg : String)
  | valueError (msg : String)
  deriving DecidableEq, Repr

/-- Module-level constant `directory = os.path.splitext(__file__)[0]+'_data'`
(line 35).  The absolute prefix depends on where the module file lives; it is
modelled by its module-relative value.  All theorems that involve it depend
only on it being one fixed string. -/
def module_directory : String := "detprob_data"

/-- State of the `pdet` / `detectability` objects as far as caching is
concerned: the files present on disk (name ↦ pickled artifact) and the
lazily-memoized in-memory interpolant (`self._interpolate`). -/
structure CacheState (α : Type) where
  files : List (String × α)
  cached : Option α
  deriving Repr

/-- `os.path.isfile` / `pickle.load` on the modelled filesystem: the artifact
stored under `name`, if any. -/
def lookupFile {α : Type} (files : List (String × α)) (name : String) : Option α :=
  (files.find? (fun p => p.1 = name)).map (·.2)

/-- The `pdet` object (class `pdet`, lines 53-117): configured Monte-Carlo
sample count `mcn`, bin count `mcbins`, cache directory and the full cache
path `self.binfile`. -/
structure pdet where
  directory : String
  mcn : ℕ
  mcbins : ℕ
  binfile : String
  deriving DecidableEq, Repr

/-- `pdet.__init__` (lines 55-69): stores `mcn`, `mcbins`, `directory`; when
no explicit `binfile` is given the cache filename is
`'pdet_'+'_'.join([x+'_'+str(eval(x)) for x in ['mcn','mcbins']])+'.pkl'`,
and `self.binfile = directory+'/'+binfile`. -/
def pdet.init (directory : String) (binfile : Option String) (mcn mcbins : ℕ) : pdet :=
  { directory := directory
    mcn := mcn
    mcbins := mcbins
    binfile := directory ++ "/" ++
      (binfile.getD ("pdet_mcn_" ++ toString mcn ++ "_mcbins_" ++ toString mcbins ++ ".pkl")) }

/-- `pdet.interpolate` (lines 89-108) as a state transformer.  If
`self._interpolate` is already set it is returned unchanged.  Otherwise, if
the cache file exists it is unpickled; if not, the expensive Monte-Carlo /
histogram step (abstracted as the value `build`) runs, the artifact is
pickled to disk and then read back.  The third component counts how many
times the expensive build branch ran during the call (0 or 1): the source has
no other way to invoke the Monte-Carlo draw from `interpolate`. -/
def pdet.interpolate' {α : Type} (binfile : String) (build : α) (st : CacheState α) :
    α × CacheState α × ℕ :=
  match st.cached with
  | some f => (f, st, 0)
  | none =>
    match lookupFile st.files binfile with
    | some art => (art, ⟨st.files, some art⟩, 0)
    | none => (build, ⟨(binfile, build) :: st.files, some build⟩, 1)

/-- `pdet.eval` (lines 110-114): obtain the interpolant (building or loading
if needed) and apply it to the query `w`; the applied value is returned along
with the updated object state and the build count of the underlying
`interpolate` call. -/
def pdet.eval' (binfile : String) (build : ℚ → ℚ) (st : CacheState (ℚ → ℚ)) (w : ℚ) :
    ℚ × CacheState (ℚ → ℚ) × ℕ :=
  let r := pdet.interpolate' binfile build st
  (r.1 w, r.2.1, r.2.2)

/-- The `detectability` object (class `detectability`, lines 125-436): every
constructor parameter stored by `__init__`, plus `binfile` (the full cache
path computed on lines 160-162) and `mapDefined`, which records whether the
conditional on line 168 assigned the `self.map` attribute (it is assigned only
when `parallel` is true and the cache file does not already exist). -/
structure detectability where
  approximant : String
  psd : String
  flow : ℚ
  deltaf : ℚ
  snrthreshold : ℚ
  massmin : ℚ
  massmax : ℚ
  zmin : ℚ
  zmax : ℚ
  mc1d : ℕ
  screen : Bool
  parallel : Bool
  directory : String
  binfile : String
  binfilepdet : Option String
  mcn : ℕ
  mcbins : ℕ
  has_pycbc : Bool
  mapDefined : Bool
  deriving DecidableEq, Repr

/-- The default detection-grid cache filename (line 161):
`'Pw_'+'_'.join([x+'_'+str(eval(x)) for x in ['approximant','psd','flow',
'deltaf','snrthreshold','massmin','massmax','zmin','zmax','mc1d']])+'.pkl'`.
Note which parameters appear: `mcn` and `mcbins` are not in the list. -/
def detectability.defaultBinfile (approximant psd : String)
    (flow deltaf snrthreshold massmin massmax zmin zmax : ℚ) (mc1d : ℕ) : String :=
  "Pw_approximant_" ++ approximant ++ "_psd_" ++ psd ++
    "_flow_" ++ toString flow ++ "_deltaf_" ++ toString deltaf ++
    "_snrthreshold_" ++ toString snrthreshold ++
    "_massmin_" ++ toString massmin ++ "_massmax_" ++ toString massmax ++
    "_zmin_" ++ toString zmin ++ "_zmax_" ++ toString zmax ++
    "_mc1d_" ++ toString mc1d ++ ".pkl"

/-- `detectability.__init__` (lines 127-180).  `existing` is the list of file
names present on disk at construction time, used by the
`os.path.isfile(self.binfile)` test on line 168: the worker pool (attribute
`self.map`) is created only when `parallel` is true and the cache file is
absent. -/
def detectability.init (approximant psd : String)
    (flow deltaf snrthreshold : ℚ) (screen parallel : Bool)
    (massmin massmax zmin zmax : ℚ) (directory : String)
    (binfile binfilepdet : Option String) (mc1d mcn mcbins : ℕ)
    (has_pycbc : Bool) (existing : List String) : detectability :=
  let bf := directory ++ "/" ++
    (binfile.getD (detectability.defaultBinfile approximant psd flow deltaf snrthreshold
      massmin massmax zmin zmax mc1d))
  { approximant := approximant
    psd := psd
    flow := flow
    deltaf := deltaf
    snrthreshold := snrthreshold
    massmin := massmin
    massmax := massmax
    zmin := zmin
    zmax := zmax
    mc1d := mc1d
    screen := screen
    parallel := parallel
    directory := directory
    binfile := bf
    binfilepdet := binfilepdet
    mcn := mcn
    mcbins := mcbins
    has_pycbc := has_pycbc
    mapDefined := parallel && !(existing.contains bf) }

/-- `detectability.pdetproj` (lines 182-185): lazily constructs the owned
`pdet` as `pdet(directory=directory, binfile=self.binfilepdet, mcn=self.mcn,
mcbins=self.mcbins)`.  The `directory` passed is the module-level global
`directory` (line 35), not `self.directory`. -/
def detectability.pdetproj (c : detectability) : pdet :=
  pdet.init module_directory c.binfilepdet c.mcn c.mcbins

/-- `detectability.snr` (lines 187-211), scalar path: the luminosity distance
is obtained from the cosmology provider (`lumdist`), then
`assert self.has_pycbc, "pycbc is needed"` runs before any waveform call, and
the SNR comes from the external waveform/matched-filter provider
(`provider m1 m2 z`, an abstract parameter of the embedding). -/
def detectability.snr (lumdist : ℚ → ℚ) (provider : ℚ → ℚ → ℚ → ℚ)
    (c : detectability) (m1 m2 z : ℚ) : Except PyError ℚ :=
  let _ld := lumdist z
  if c.has_pycbc then Except.ok (provider m1 m2 z)
  else Except.error (PyError.assertionError "pycbc is needed")

/-- `detectability.compute` (lines 231-236).  The first parameter of the
Python method, written `cls`, receives the `detectability` instance the
method is invoked on.  Its first statement `istance = cls()` therefore calls
`detectability.__call__` on that instance with zero arguments, while
`__call__` (line 435) requires the three arguments `m1, m2, z`: Python raises
`TypeError` before any later statement runs (were it to continue, the body
would next hit a `NameError`, since it reads the unbound name `self` on line
236, and an `AttributeError` on `self.pdetproj.eval`, since `pdetproj` is a
method, not an attribute).  The embedding therefore returns that `TypeError`
for every receiver and every argument triple. -/
def detectability.compute (_c : detectability) (_m1 _m2 _z : ℚ) : Except PyError ℚ :=
  Except.error (PyError.typeError "__call__() takes exactly 4 arguments (1 given)")

/-- `np.linspace(a, b, n)` as a function of the index: `n` evenly spaced
points from `a` to `b` inclusive, `i ↦ a + (b-a)*i/(n-1)`. -/
def linspaceF (a b : ℚ) (n : ℕ) (i : ℕ) : ℚ :=
  a + (b - a) * i / ((n - 1 : ℕ) : ℚ)

/-- `np.linspace(a, b, n)` as the list of its `n` points. -/
def linspace (a b : ℚ) (n : ℕ) : List ℚ :=
  (List.range n).map (linspaceF a b n)

/-- The task list built by the double loop of `snrinterpolant` (lines
274-281): for every index pair `(i, j)` of the two axes, the entry
`((i, j), (f i, g j))` pairing the `meshcoord` tag with the `meshgrid`
coordinates.  The source keeps `meshcoord` and `meshgrid` as two lists that
are permuted by one common permutation and consumed by `zip`; the embedding
keeps each tag with its coordinates, which `zip` reconstructs. -/
def mesh2 (A B : ℕ) (f g : ℕ → ℚ) : List ((ℕ × ℕ) × (ℚ × ℚ)) :=
  (List.range A).flatMap (fun i =>
    (List.range B).map (fun j => ((i, j), (f i, g j))))

/-- The task list built by the triple loop of `interpolate` (lines 361-370),
tagging each `(i, j, k)` with the grid coordinates `(f i, g j, h k)`. -/
def mesh3 (A B C : ℕ) (f g h : ℕ → ℚ) : List ((ℕ × ℕ × ℕ) × (ℚ × ℚ × ℚ)) :=
  (List.range A).flatMap (fun i =>
    (List.range B).flatMap (fun j =>
      (List.range C).map (fun k => ((i, j, k), (f i, g j, h k)))))

/-- The scatter loop `for ij,val in zip(meshcoord,meshvalues):
valuesforinterpolator[i,j]=val` (lines 316-319 and 406-409): starting from
`np.zeros` (the `base` function), write each tagged value into the dense
array at its index tag, in list order. -/
def scatter {κ γ : Type} [DecidableEq κ] (base : κ → γ) (l : List (κ × γ)) : κ → γ :=
  l.foldl (fun f e => Function.update f e.1 e.2) base

/-- `detectability.snrinterpolant` (lines 249-330), producing the dense SNR
value array (the subsequent `RegularGridInterpolator` wrapping is modelled
separately).  `fn` abstracts the per-point evaluation `self._snr` (an
external waveform-provider call), and `shuffle` abstracts the random
permutation `np.random.permutation` applied to the task list in the parallel
branch (lines 289-293); any function may be passed, the theorems quantify
over those that permute their input.  The branch order follows the source:
the `assert self.has_pycbc` on line 255, then the `if self.parallel` on line
284; in the parallel branch, `self.map` (line 301) is only present when
`__init__` assigned it, otherwise Python raises `AttributeError`. -/
def detectability.snrinterpolant (c : detectability) (fn : ℚ × ℚ → ℚ)
    (shuffle : List ((ℕ × ℕ) × (ℚ × ℚ)) → List ((ℕ × ℕ) × (ℚ × ℚ))) :
    Except PyError ((ℕ × ℕ) → ℚ) :=
  if c.has_pycbc then
    let lo := c.massmin * (1 + c.zmin)
    let hi := c.massmax * (1 + c.zmax)
    let tasks := mesh2 c.mc1d c.mc1d (linspaceF lo hi c.mc1d) (linspaceF lo hi c.mc1d)
    if c.parallel then
      if c.mapDefined then
        Except.ok (scatter (fun _ => 0) ((shuffle tasks).map (fun t => (t.1, fn t.2))))
      else
        Except.error (PyError.attributeError
          "'detectability' object has no attribute 'map'")
    else
      Except.ok (scatter (fun _ => 0) (tasks.map (fun t => (t.1, fn t.2))))
  else Except.error (PyError.assertionError "pycbc is needed")

/-- `detectability.interpolate` (lines 333-419) as a state transformer over
the cache state, with the expensive cache-miss work (SNR-grid build,
projection-distribution build, 3D grid evaluation, lines 345-413) abstracted
as the artifact `build`.  The source first tests `self._interpolate is None`
(line 336), then runs `assert self.has_pycbc` (line 337) before the
`os.path.isfile` test, loads the pickled artifact on a cache hit, and
otherwise builds, pickles and re-loads.  The third component counts how many
times the cache-miss build branch ran during the call. -/
def detectability.interpolate' {β : Type} (c : detectability) (build : β)
    (st : CacheState β) : Except PyError (β × CacheState β × ℕ) :=
  match st.cached with
  | some f => Except.ok (f, st, 0)
  | none =>
    if c.has_pycbc then
      match lookupFile st.files c.binfile with
      | some art => Except.ok (art, ⟨st.files, some art⟩, 0)
      | none => Except.ok (build, ⟨(c.binfile, build) :: st.files, some build⟩, 1)
    else Except.error (PyError.assertionError "pycbc is needed")

/-- A fixed fully-default configuration used by concrete instances below:
`detectability()` with the source defaults (lines 127-145) except where a
field is overridden at the use site. -/
def defaultCfg (directory : String) (binfile binfilepdet : Option String)
    (mcn mcbins : ℕ) (has_pycbc parallel : Bool) (existing : List String) : detectability :=
  detectability.init "IMRPhenomD" "aLIGOZeroDetHighPower" 10 (1/40) 8 false parallel
    1 100 (1/10000) (11/5) directory binfile binfilepdet 200 mcn mcbins has_pycbc existing

/-- Claim C1: the detection-probability grid's cache filename is built (line
161) from approximant, psd, flow, deltaf, snrthreshold, massmin, massmax,
zmin, zmax and mc1d only.  The Monte-Carlo sample count `mcn` and bin count
`mcbins` — which the grid's values depend on through the projection-factor
distribution used by `_compute` — are NOT part of the name: two
configurations that differ only in `mcn` and `mcbins` resolve to the same
cache artifact, contradicting the claimed injectivity. -/
theorem c1_binfile_ignores_mcn_mcbins :
    (defaultCfg module_directory none none 100 50 true true []).binfile
      = (defaultCfg module_directory none none 200000 70 true true []).binfile
    ∧ (defaultCfg module_directory none none 100 50 true true []).mcn
      ≠ (defaultCfg module_directory none none 200000 70 true true []).mcn
    ∧ (defaultCfg module_directory none none 100 50 true true []).mcbins
      ≠ (defaultCfg module_directory none none 200000 70 true true []).mcbins :=
  ⟨rfl, by decide, by decide⟩

/-- Claim C3: `detectability.compute` (lines 231-236) never returns a
detection probability.  Its first statement `istance = cls()` calls the
instance itself with zero arguments while `__call__` requires `m1, m2, z`,
so every invocation raises `TypeError` before any waveform or
survival-function work happens.  The spec's "exact oracle path" is
unreachable. -/
theorem c3_compute_always_raises :
    ∀ (c : detectability) (m1 m2 z : ℚ),
      detectability.compute c m1 m2 z
        = Except.error (PyError.typeError "__call__() takes exactly 4 arguments (1 given)") :=
  fun _ _ _ _ => rfl

/-- A `detectability` built with an explicit non-default cache directory,
used to exhibit the C4 counterexample. -/
def c4cfg : detectability :=
  defaultCfg "custom_dir" none none 100 50 true true []

/-- Claim C4 counterexample: constructing `detectability` with the directory
argument `"custom_dir"` and calling `pdetproj()` yields a `pdet` whose
directory is the module-level default (line 184 passes the global
`directory`, not `self.directory`), so it differs from the owning pipeline's
configured directory. -/
theorem c4_counterexample_pdetproj_directory :
    (detectability.pdetproj c4cfg).directory ≠ c4cfg.directory := by decide

/-- Claim C4 (amended): `pdetproj()` constructs its `pdet` with the
module-level default cache directory — not the pipeline's configured one —
while passing through the pipeline's `binfilepdet`, `mcn` and `mcbins`; the
two directories coincide exactly when the pipeline was constructed with the
module default. -/
theorem c4_amended_pdetproj_uses_module_directory :
    ∀ c : detectability,
      (detectability.pdetproj c).directory = module_directory
      ∧ (detectability.pdetproj c).mcn = c.mcn
      ∧ (detectability.pdetproj c).mcbins = c.mcbins
      ∧ detectability.pdetproj c = pdet.init module_directory c.binfilepdet c.mcn c.mcbins :=
  fun _ => ⟨rfl, rfl, rfl, rfl⟩

/-- Claim C9: with the waveform provider unavailable (`has_pycbc = false`):
construction succeeds and stores exactly the same state as with the provider
present apart from the flag itself; `snr`, `snrinterpolant` and a
first-need `interpolate` all fail fast with the explicit
`assert self.has_pycbc, "pycbc is needed"`; and the projection-factor
distribution obtained through `pdetproj` is identical to the one a
provider-equipped instance would build (none of the `pdet` functionality
reads the flag), so it stays fully usable standalone. -/
theorem c9_no_pycbc_behaviour :
    (∀ (approximant psd : String) (flow deltaf snrthreshold : ℚ) (screen parallel : Bool)
        (massmin massmax zmin zmax : ℚ) (directory : String)
        (binfile binfilepdet : Option String) (mc1d mcn mcbins : ℕ) (existing : List String),
      detectability.init approximant psd flow deltaf snrthreshold screen parallel
          massmin massmax zmin zmax directory binfile binfilepdet mc1d mcn mcbins
          false existing
        = { detectability.init approximant psd flow deltaf snrthreshold screen parallel
              massmin massmax zmin zmax directory binfile binfilepdet mc1d mcn mcbins
              true existing with has_pycbc := false })
    ∧ (∀ (lumdist : ℚ → ℚ) (provider : ℚ → ℚ → ℚ → ℚ) (c : detectability) (m1 m2 z : ℚ),
        c.has_pycbc = false →
          detectability.snr lumdist provider c m1 m2 z
            = Except.error (PyError.assertionError "pycbc is needed"))
    ∧ (∀ (c : detectability) (fn : ℚ × ℚ → ℚ)
          (shuffle : List ((ℕ × ℕ) × (ℚ × ℚ)) → List ((ℕ × ℕ) × (ℚ × ℚ))),
        c.has_pycbc = false →
          detectability.snrinterpolant c fn shuffle
            = Except.error (PyError.assertionError "pycbc is needed"))
    ∧ (∀ (β : Type) (c : detectability) (build : β) (st : CacheState β),
        c.has_pycbc = false → st.cached = none →
          detectability.interpolate' c build st
            = Except.error (PyError.assertionError "pycbc is needed"))
    ∧ (∀ c : detectability,
        detectability.pdetproj { c with has_pycbc := false }
          = detectability.pdetproj { c with has_pycbc := true }) := by
  refine ⟨fun _ _ _ _ _ _ _ _ _ _ _ _ _ _ _ _ _ _ => rfl, ?_, ?_, ?_, fun _ => rfl⟩
  · intro lumdist provider c m1 m2 z h
    simp [detectability.snr, h]
  · intro c fn shuffle h
    simp [detectability.snrinterpolant, h]
  · intro β c build st h hst
    simp [detectability.interpolate', h, hst]

/-- Witness for C9: a concrete provider-less instance is constructed, and
`snr` and a first-need `interpolate` on it return the explicit
"pycbc is needed" assertion failure. -/
theorem c9_no_pycbc_behaviour_witness :
    detectability.snr (fun z => z) (fun a b c => a + b + c)
        (defaultCfg module_directory none none 100 50 false true []) 10 10 (1/10)
      = Except.error (PyError.assertionError "pycbc is needed")
    ∧ detectability.interpolate' (β := ℕ)
        (defaultCfg module_directory none none 100 50 false true []) 7 ⟨[], none⟩
      = Except.error (PyError.assertionError "pycbc is needed") :=
  ⟨c9_no_pycbc_behaviour.2.1 (fun z => z) (fun a b c => a + b + c) _ 10 10 (1/10) rfl,
   c9_no_pycbc_behaviour.2.2.2.1 ℕ _ 7 ⟨[], none⟩ rfl rfl⟩

/-- Claim C10: a `detectability` constructed with `parallel=True` while its
detection-grid cache file already exists never assigns the `self.map`
attribute (line 168's conditional is false), so a later direct
`snrinterpolant()` call — even with the waveform provider available — reaches
`self.map(...)` on line 301 and fails with `AttributeError` rather than
building the SNR grid. -/
theorem c10_parallel_cached_snrinterpolant_attribute_error :
    ∀ (approximant psd : String) (flow deltaf snrthreshold : ℚ) (screen : Bool)
      (massmin massmax zmin zmax : ℚ) (directory : String)
      (binfile binfilepdet : Option String) (mc1d mcn mcbins : ℕ)
      (existing : List String) (c : detectability),
      c = detectability.init approximant psd flow deltaf snrthreshold screen true
            massmin massmax zmin zmax directory binfile binfilepdet mc1d mcn mcbins
            true existing →
      existing.contains c.binfile = true →
      c.mapDefined = false
      ∧ ∀ (fn : ℚ × ℚ → ℚ)
          (shuffle : List ((ℕ × ℕ) × (ℚ × ℚ)) → List ((ℕ × ℕ) × (ℚ × ℚ))),
          detectability.snrinterpolant c fn shuffle
            = Except.error (PyError.attributeError
                "'detectability' object has no attribute 'map'") := by
  intro approximant psd flow deltaf snrthreshold screen massmin massmax zmin zmax
    directory binfile binfilepdet mc1d mcn mcbins existing c hc hfile
  subst hc
  simp only [detectability.init] at hfile ⊢
  have hmem := List.mem_of_elem_eq_true hfile
  refine ⟨by simp [hmem], ?_⟩
  intro fn shuffle
  simp [detectability.snrinterpolant, hmem]

/-- Witness for C10: a concrete instance built with `parallel=True`,
`has_pycbc=True` and its cache file already on disk has no `map` attribute
and its `snrinterpolant` raises `AttributeError`. -/
theorem c10_witness :
    (defaultCfg "d" (some "bf.pkl") none 100 50 true true ["d/bf.pkl"]).mapDefined = false
    ∧ ∀ (fn : ℚ × ℚ → ℚ)
        (shuffle : List ((ℕ × ℕ) × (ℚ × ℚ)) → List ((ℕ × ℕ) × (ℚ × ℚ))),
        detectability.snrinterpolant
            (defaultCfg "d" (some "bf.pkl") none 100 50 true true ["d/bf.pkl"]) fn shuffle
          = Except.error (PyError.attributeError
              "'detectability' object has no attribute 'map'") :=
  c10_parallel_cached_snrinterpolant_attribute_error
    "IMRPhenomD" "aLIGOZeroDetHighPower" 10 (1/40) 8 false 1 100 (1/10000) (11/5)
    "d" (some "bf.pkl") none 200 100 50 ["d/bf.pkl"] _ rfl (by decide)

/-- Claim C7: cache idempotence.  (1) A freshly constructed `pdet` whose
cache artifact is already on disk loads it from the file, leaves the
filesystem unchanged and never runs the Monte-Carlo build (count 0).
(2)/(3) A second `interpolate`/`eval` on the same instance reuses the
memoized interpolant: it returns the identical artifact (hence `eval` on the
same input returns the identical output) with zero further builds.
(4) The same for the detection-probability grid: with the provider available
and the artifact on disk, `detectability.interpolate` loads it with zero
grid computations, and (5) any successful call makes the following call on
the same instance return the same artifact and state with zero builds. -/
theorem c7_cache_idempotence :
    (∀ (α : Type) (p : pdet) (build : α) (st : CacheState α) (art : α),
      st.cached = none → lookupFile st.files p.binfile = some art →
        pdet.interpolate' p.binfile build st = (art, ⟨st.files, some art⟩, 0))
    ∧ (∀ (α : Type) (bf : String) (build : α) (st : CacheState α),
        pdet.interpolate' bf build ((pdet.interpolate' bf build st).2.1)
          = ((pdet.interpolate' bf build st).1, (pdet.interpolate' bf build st).2.1, 0))
    ∧ (∀ (bf : String) (build : ℚ → ℚ) (st : CacheState (ℚ → ℚ)) (w : ℚ),
        (pdet.eval' bf build ((pdet.eval' bf build st w).2.1) w).1
          = (pdet.eval' bf build st w).1
        ∧ (pdet.eval' bf build ((pdet.eval' bf build st w).2.1) w).2.2 = 0)
    ∧ (∀ (β : Type) (c : detectability) (build : β) (st : CacheState β) (art : β),
        c.has_pycbc = true → st.cached = none → lookupFile st.files c.binfile = some art →
          detectability.interpolate' c build st
            = Except.ok (art, ⟨st.files, some art⟩, 0))
    ∧ (∀ (β : Type) (c : detectability) (build : β) (st st' : CacheState β) (f : β) (n : ℕ),
        detectability.interpolate' c build st = Except.ok (f, st', n) →
          detectability.interpolate' c build st' = Except.ok (f, st', 0)) := by
  have hsecond : ∀ (α : Type) (bf : String) (build : α) (st : CacheState α),
      pdet.interpolate' bf build ((pdet.interpolate' bf build st).2.1)
        = ((pdet.interpolate' bf build st).1, (pdet.interpolate' bf build st).2.1, 0) := by
    intro α bf build st
    rcases st with ⟨files, cached⟩
    cases cached with
    | some f => rfl
    | none =>
      simp only [pdet.interpolate']
      cases lookupFile files bf with
      | some art => rfl
      | none => rfl
  refine ⟨?_, hsecond, ?_, ?_, ?_⟩
  · intro α p build st art hcached hfile
    rcases st with ⟨files, cached⟩
    cases hcached
    simp only [pdet.interpolate', hfile]
  · intro bf build st w
    constructor
    · show (pdet.interpolate' bf build (pdet.interpolate' bf build st).2.1).1 w
        = (pdet.interpolate' bf build st).1 w
      rw [hsecond]
    · show (pdet.interpolate' bf build (pdet.interpolate' bf build st).2.1).2.2 = 0
      rw [hsecond]
  · intro β c build st art hpy hcached hfile
    rcases st with ⟨files, cached⟩
    cases hcached
    simp only [detectability.interpolate', hpy, hfile, if_true]
  · intro β c build st st' f n h
    rcases st with ⟨files, cached⟩
    cases cached with
    | some g =>
      simp only [detectability.interpolate', Except.ok.injEq, Prod.mk.injEq] at h ⊢
      obtain ⟨h1, h2, -⟩ := h
      rw [← h2, h1]
    | none =>
      simp only [detectability.interpolate'] at h
      by_cases hpy : c.has_pycbc
      · rw [if_pos hpy] at h
        cases hlk : lookupFile files c.binfile with
        | some art =>
          rw [hlk] at h
          simp only [Except.ok.injEq, Prod.mk.injEq] at h
          obtain ⟨h1, h2, -⟩ := h
          rw [← h2, ← h1]
          rfl
        | none =>
          rw [hlk] at h
          simp only [Except.ok.injEq, Prod.mk.injEq] at h
          obtain ⟨h1, h2, -⟩ := h
          rw [← h2, ← h1]
          rfl
      · rw [if_neg hpy] at h
        exact absurd h (by simp)

/-- Witness for C7: a concrete `pdet` and a concrete provider-equipped
`detectability`, each with its artifact already on disk and nothing memoized,
load the stored artifact (here `5` and `11`) with zero builds. -/
theorem c7_cache_idempotence_witness :
    pdet.interpolate' (pdet.init "d" (some "p.pkl") 100 50).binfile (9 : ℕ)
        ⟨[("d/p.pkl", 5)], none⟩
      = (5, ⟨[("d/p.pkl", 5)], some 5⟩, 0)
    ∧ detectability.interpolate' (defaultCfg "d" (some "bf.pkl") none 100 50 true true [])
        (9 : ℕ) ⟨[("d/bf.pkl", 11)], none⟩
      = Except.ok (11, ⟨[("d/bf.pkl", 11)], some 11⟩, 0) :=
  ⟨c7_cache_idempotence.1 ℕ (pdet.init "d" (some "p.pkl") 100 50) 9
      ⟨[("d/p.pkl", 5)], none⟩ 5 rfl rfl,
   c7_cache_idempotence.2.2.2.1 ℕ (defaultCfg "d" (some "bf.pkl") none 100 50 true true [])
      9 ⟨[("d/bf.pkl", 11)], none⟩ 11 rfl rfl rfl⟩

/-- If no entry of the tagged list carries the key `k`, the scatter loop
leaves the array untouched at `k`. -/
theorem scatter_key_not_mem {κ γ : Type} [DecidableEq κ] :
    ∀ (l : List (κ × γ)) (base : κ → γ) (k : κ),
      (∀ e ∈ l, e.1 ≠ k) → scatter base l k = base k := by
  intro l
  induction l with
  | nil => intro base k _; rfl
  | cons e t ih =>
    intro base k h
    have ht : ∀ e' ∈ t, e'.1 ≠ k := fun e' he' => h e' (List.mem_cons_of_mem _ he')
    have he : e.1 ≠ k := h e (List.mem_cons_self _ _)
    show scatter (Function.update base e.1 e.2) t k = base k
    rw [ih _ _ ht, Function.update_noteq (Ne.symm he)]

/-- If the tagged list contains the entry `(k, v)` and every entry tagged `k`
carries the value `v`, the scatter loop ends with `v` at `k` — regardless of
the order of the writes. -/
theorem scatter_write {κ γ : Type} [DecidableEq κ] :
    ∀ (l : List (κ × γ)) (base : κ → γ) (k : κ) (v : γ),
      (k, v) ∈ l → (∀ e ∈ l, e.1 = k → e.2 = v) → scatter base l k = v := by
  intro l
  induction l with
  | nil => intro base k v h _; cases h
  | cons e t ih =>
    intro base k v hmem huniq
    by_cases hmemt : (k, v) ∈ t
    · exact ih _ _ _ hmemt (fun e' he' => huniq e' (List.mem_cons_of_mem _ he'))
    · have he : e = (k, v) := by
        rcases List.mem_cons.mp hmem with h | h
        · exact h.symm
        · exact absurd h hmemt
      have ht : ∀ e' ∈ t, e'.1 ≠ k := by
        rintro ⟨k', v'⟩ he' hk
        cases hk
        have hv' : v' = v := huniq _ (List.mem_cons_of_mem _ he') rfl
        cases hv'
        exact hmemt he'
      show scatter (Function.update base e.1 e.2) t k = v
      rw [scatter_key_not_mem t _ k ht, he]
      simp

/-- Every grid point of the 2D mesh appears in the task list, tagged with its
own index pair. -/
theorem mesh2_mem {A B : ℕ} {f g : ℕ → ℚ} {i j : ℕ} (hi : i < A) (hj : j < B) :
    ((i, j), (f i, g j)) ∈ mesh2 A B f g := by
  simp only [mesh2, List.mem_flatMap, List.mem_map, List.mem_range]
  exact ⟨i, hi, j, hj, rfl⟩

/-- In the 2D mesh, an entry's coordinates are determined by its index tag. -/
theorem mesh2_value {A B : ℕ} {f g : ℕ → ℚ} :
    ∀ e ∈ mesh2 A B f g, e.2 = (f e.1.1, g e.1.2) := by
  intro e he
  simp only [mesh2, List.mem_flatMap, List.mem_map, List.mem_range] at he
  obtain ⟨i, -, j, -, rfl⟩ := he
  rfl

/-- Every grid point of the 3D mesh appears in the task list, tagged with its
own index triple. -/
theorem mesh3_mem {A B C : ℕ} {f g h : ℕ → ℚ} {i j k : ℕ}
    (hi : i < A) (hj : j < B) (hk : k < C) :
    ((i, j, k), (f i, g j, h k)) ∈ mesh3 A B C f g h := by
  simp only [mesh3, List.mem_flatMap, List.mem_map, List.mem_range]
  exact ⟨i, hi, j, hj, k, hk, rfl⟩

/-- In the 3D mesh, an entry's coordinates are determined by its index tag. -/
theorem mesh3_value {A B C : ℕ} {f g h : ℕ → ℚ} :
    ∀ e ∈ mesh3 A B C f g h, e.2 = (f e.1.1, g e.1.2.1, h e.1.2.2) := by
  intro e he
  simp only [mesh3, List.mem_flatMap, List.mem_map, List.mem_range] at he
  obtain ⟨i, -, j, -, k, -, rfl⟩ := he
  rfl

/-- Claim C2: for every per-point evaluation function and every grid, the
parallel build path (which applies one random permutation to the tagged task
list before dispatch, lines 289-293/376-380 together with the index-tagged
scatter of lines 316-319/406-409) and the sequential path (`map` in input
order) assemble the same dense value array: entry `(i, j)` of the 2D SNR
grid is `fn` at the grid coordinates of `(i, j)`, and entry `(i, j, k)` of
the 3D detection grid is `fn` at the coordinates of `(i, j, k)`, for every
permutation of the task list.  The sequential path is the identity
permutation, so both paths agree everywhere on the grid. -/
theorem c2_assembly_permutation_invariant :
    (∀ (A B : ℕ) (f g : ℕ → ℚ) (fn : ℚ × ℚ → ℚ)
        (tasks : List ((ℕ × ℕ) × (ℚ × ℚ))) (i j : ℕ),
      tasks.Perm (mesh2 A B f g) → i < A → j < B →
        scatter (fun _ => (0 : ℚ)) (tasks.map (fun t => (t.1, fn t.2))) (i, j)
          = fn (f i, g j))
    ∧ (∀ (A B C : ℕ) (f g h : ℕ → ℚ) (fn : ℚ × ℚ × ℚ → ℚ)
        (tasks : List ((ℕ × ℕ × ℕ) × (ℚ × ℚ × ℚ))) (i j k : ℕ),
      tasks.Perm (mesh3 A B C f g h) → i < A → j < B → k < C →
        scatter (fun _ => (0 : ℚ)) (tasks.map (fun t => (t.1, fn t.2))) (i, j, k)
          = fn (f i, g j, h k)) := by
  constructor
  · intro A B f g fn tasks i j hperm hi hj
    apply scatter_write
    · exact List.mem_map.mpr ⟨_, hperm.mem_iff.mpr (mesh2_mem hi hj), rfl⟩
    · intro e he hk
      obtain ⟨t, ht, rfl⟩ := List.mem_map.mp he
      have hv := mesh2_value t (hperm.mem_iff.mp ht)
      simp only at hk ⊢
      rw [hv, hk]
  · intro A B C f g h fn tasks i j k hperm hi hj hk
    apply scatter_write
    · exact List.mem_map.mpr ⟨_, hperm.mem_iff.mpr (mesh3_mem hi hj hk), rfl⟩
    · intro e he hke
      obtain ⟨t, ht, rfl⟩ := List.mem_map.mp he
      have hv := mesh3_value t (hperm.mem_iff.mp ht)
      simp only at hke ⊢
      rw [hv, hke]

/-- Witness for C2: on a concrete 2×2 grid with the summing evaluation
function and the reversed task list as the permutation, the assembled array
holds the evaluation of the grid point at index `(1, 0)`. -/
theorem c2_assembly_witness :
    scatter (fun _ => (0 : ℚ))
        (((mesh2 2 2 (fun i => (i : ℚ)) (fun j => (j : ℚ))).reverse).map
          (fun t => (t.1, t.2.1 + t.2.2))) (1, 0) = 1 := by
  have h := c2_assembly_permutation_invariant.1 2 2 (fun i => (i : ℚ)) (fun j => (j : ℚ))
    (fun p => p.1 + p.2) ((mesh2 2 2 (fun i => (i : ℚ)) (fun j => (j : ℚ))).reverse) 1 0
    (List.reverse_perm _) (by decide) (by decide)
  simpa using h

/-- The cell-selection step of `scipy.interpolate.RegularGridInterpolator`
for one dimension: `np.searchsorted(grid, x, side='right') - 1` — for a
sorted grid, the number of grid points `≤ x`, minus one — clamped into
`[0, len-2]` so that queries left of the grid use the first cell and queries
right of the grid use the last cell (this clamping is what makes fill_value
`None` extrapolate from the boundary cell).  Natural subtraction performs the
lower clamp. -/
def cellIndex (g : List ℚ) (x : ℚ) : ℕ :=
  min (g.countP (fun e => decide (e ≤ x)) - 1) (g.length - 2)

/-- The normalized distance of `x` into its (clamped) cell; outside the grid
it falls below 0 or above 1, which is exactly linear extrapolation. -/
def normDist (g : List ℚ) (x : ℚ) : ℚ :=
  (x - g.getD (cellIndex g x) 0) /
    (g.getD (cellIndex g x + 1) 0 - g.getD (cellIndex g x) 0)

/-- Bilinear interpolation over the last two axes at fixed first index:
weighted sum of the four cell corners. -/
def bilinear (gy gz : List ℚ) (v2 : ℕ → ℕ → ℚ) (y z : ℚ) : ℚ :=
  (1 - normDist gy y) *
      ((1 - normDist gz z) * v2 (cellIndex gy y) (cellIndex gz z)
        + normDist gz z * v2 (cellIndex gy y) (cellIndex gz z + 1))
    + normDist gy y *
      ((1 - normDist gz z) * v2 (cellIndex gy y + 1) (cellIndex gz z)
        + normDist gz z * v2 (cellIndex gy y + 1) (cellIndex gz z + 1))

/-- Trilinear interpolation: the multilinear rule of
`RegularGridInterpolator(method='linear')` on a 3D grid, as the convex (or,
outside the grid, affine) combination of the two bilinear slices of the
(clamped) cell. -/
def trilinear (gx gy gz : List ℚ) (v : ℕ → ℕ → ℕ → ℚ) (x y z : ℚ) : ℚ :=
  (1 - normDist gx x) * bilinear gy gz (fun j k => v (cellIndex gx x) j k) y z
    + normDist gx x * bilinear gy gz (fun j k => v (cellIndex gx x + 1) j k) y z

/-- Whether the query lies outside the grid's bounding box. -/
def queryOutOfBounds (gx gy gz : List ℚ) (x y z : ℚ) : Bool :=
  decide (x < gx.headD 0) || decide (gx.getLastD 0 < x)
    || decide (y < gy.headD 0) || decide (gy.getLastD 0 < y)
    || decide (z < gz.headD 0) || decide (gz.getLastD 0 < z)

/-- `scipy.interpolate.RegularGridInterpolator(points, values, bounds_error,
fill_value)` evaluated at one 3D query: with `bounds_error=True` an
out-of-bounds query raises `ValueError`; with `bounds_error=False` and
`fill_value=None` (the combination the source passes on lines 321 and 411)
every query — in or out of bounds — is answered by the multilinear rule over
the clamped boundary cell. -/
def RegularGridInterpolator3 (boundsError : Bool) (gx gy gz : List ℚ)
    (v : ℕ → ℕ → ℕ → ℚ) (x y z : ℚ) : Except PyError ℚ :=
  if boundsError && queryOutOfBounds gx gy gz x y z then
    Except.error (PyError.valueError "One of the requested xi is out of bounds")
  else Except.ok (trilinear gx gy gz v x y z)

/-- `detectability.eval` (lines 422-433), scalar path, with the dense value
array `v` of the cached interpolant abstracted: evaluate the 3D interpolant
built by `interpolate` (line 411) — axes `linspace(massmin, massmax, mc1d)`,
`linspace(massmin, massmax, mc1d)`, `linspace(zmin, zmax, mc1d)` with
`bounds_error=False, fill_value=None` — at `(m1, m2, z)`. -/
def detectability.evalGrid (c : detectability) (v : ℕ → ℕ → ℕ → ℚ)
    (m1 m2 z : ℚ) : Except PyError ℚ :=
  RegularGridInterpolator3 false
    (linspace c.massmin c.massmax c.mc1d) (linspace c.massmin c.massmax c.mc1d)
    (linspace c.zmin c.zmax c.mc1d) v m1 m2 z

/-- Every point of `np.linspace(a, b, n)` is at most `b` (for `a ≤ b`,
`n ≥ 2`). -/
theorem linspace_le {a b : ℚ} {n : ℕ} (hab : a ≤ b) (hn : 2 ≤ n) :
    ∀ e ∈ linspace a b n, e ≤ b := by
  intro e he
  simp only [linspace, List.mem_map, List.mem_range] at he
  obtain ⟨i, hi, rfl⟩ := he
  simp only [linspaceF]
  have h1 : (1 : ℚ) ≤ ((n - 1 : ℕ) : ℚ) := by exact_mod_cast (by omega : 1 ≤ n - 1)
  have hN : (0 : ℚ) < ((n - 1 : ℕ) : ℚ) := by linarith
  have hiN : (i : ℚ) ≤ ((n - 1 : ℕ) : ℚ) := by exact_mod_cast (by omega : i ≤ n - 1)
  have hq : (b - a) * i / ((n - 1 : ℕ) : ℚ) ≤ b - a := by
    rw [div_le_iff₀ hN]
    exact mul_le_mul_of_nonneg_left hiN (by linarith)
  linarith

/-- When the query is at or beyond every grid point, the clamped cell is the
last one. -/
theorem cellIndex_of_ge (g : List ℚ) (x : ℚ) (h : ∀ e ∈ g, e ≤ x) :
    cellIndex g x = g.length - 2 := by
  have hc : g.countP (fun e => decide (e ≤ x)) = g.length :=
    List.countP_eq_length.mpr (by intro a ha; simpa using h a ha)
  simp only [cellIndex, hc]
  omega

/-- For fixed trailing coordinates, the trilinear rule beyond the first
axis's last grid point is an affine function of the first coordinate: the
linear extension of the boundary cell. -/
theorem trilinear_affine_beyond (gx gy gz : List ℚ) (v : ℕ → ℕ → ℕ → ℚ) (y z : ℚ) :
    ∃ a b : ℚ, ∀ x : ℚ, (∀ e ∈ gx, e ≤ x) → trilinear gx gy gz v x y z = a * x + b := by
  refine ⟨(bilinear gy gz (fun j k => v (gx.length - 2 + 1) j k) y z
        - bilinear gy gz (fun j k => v (gx.length - 2) j k) y z)
      / (gx.getD (gx.length - 2 + 1) 0 - gx.getD (gx.length - 2) 0),
    bilinear gy gz (fun j k => v (gx.length - 2) j k) y z
      - gx.getD (gx.length - 2) 0 *
        ((bilinear gy gz (fun j k => v (gx.length - 2 + 1) j k) y z
            - bilinear gy gz (fun j k => v (gx.length - 2) j k) y z)
          / (gx.getD (gx.length - 2 + 1) 0 - gx.getD (gx.length - 2) 0)), ?_⟩
  intro x hx
  have hci : cellIndex gx x = gx.length - 2 := cellIndex_of_ge gx x hx
  simp only [trilinear, normDist, hci, div_eq_mul_inv]
  ring

/-- Claim C8: the detection-probability grid interpolant is built with
`bounds_error=False, fill_value=None` (line 411), so (first conjunct) its
`eval` returns an ordinary numeric value for every query — including
out-of-grid and physically invalid inputs such as negative masses or
out-of-range redshift — and (second conjunct) beyond the grid boundary the
returned value is the linear extension of the boundary cell: for any fixed
`(m2, z)` there are coefficients `a, b` with `eval(x, m2, z) = a*x + b` for
every `x` at or beyond the mass-axis upper bound. -/
theorem c8_eval_total_and_extrapolates :
    (∀ (c : detectability) (v : ℕ → ℕ → ℕ → ℚ) (m1 m2 z : ℚ),
      ∃ val, detectability.evalGrid c v m1 m2 z = Except.ok val)
    ∧ (∀ (c : detectability) (v : ℕ → ℕ → ℕ → ℚ) (m2 z : ℚ),
      c.massmin ≤ c.massmax → 2 ≤ c.mc1d →
        ∃ a b : ℚ, ∀ x : ℚ, c.massmax ≤ x →
          detectability.evalGrid c v x m2 z = Except.ok (a * x + b)) := by
  constructor
  · intro c v m1 m2 z
    exact ⟨_, rfl⟩
  · intro c v m2 z hab hn
    obtain ⟨a, b, hab'⟩ := trilinear_affine_beyond
      (linspace c.massmin c.massmax c.mc1d) (linspace c.massmin c.massmax c.mc1d)
      (linspace c.zmin c.zmax c.mc1d) v m2 z
    refine ⟨a, b, fun x hx => ?_⟩
    have hall : ∀ e ∈ linspace c.massmin c.massmax c.mc1d, e ≤ x :=
      fun e he => le_trans (linspace_le hab hn e he) hx
    simp only [detectability.evalGrid, RegularGridInterpolator3, Bool.false_and,
      Bool.false_eq_true, if_false, hab' x hall]

/-- Witness for C8: on the default mass/redshift bounds with a concrete
value array, a query with negative mass and out-of-range redshift still
returns a value, and the mass-axis extrapolation beyond 100 is affine. -/
theorem c8_eval_witness :
    (∃ val, detectability.evalGrid (defaultCfg module_directory none none 100 50 true true [])
        (fun i j k => (i + j + k : ℚ)) (-5) (-3) 10 = Except.ok val)
    ∧ (∃ a b : ℚ, ∀ x : ℚ, (100 : ℚ) ≤ x →
        detectability.evalGrid (defaultCfg module_directory none none 100 50 true true [])
          (fun i j k => (i + j + k : ℚ)) x 50 1 = Except.ok (a * x + b)) :=
  ⟨c8_eval_total_and_extrapolates.1 _ _ (-5) (-3) 10,
   c8_eval_total_and_extrapolates.2 (defaultCfg module_directory none none 100 50 true true [])
     (fun i j k => (i + j + k : ℚ)) 50 1 (by decide)
     (by decide)⟩

/-- The plus antenna pattern (line 81, Eq. (57) of arXiv:0903.0338) at polar
angle `θ`, azimuth `φ` and polarization `ψ`. -/
noncomputable def Fplus (θ φ ψ : ℝ) : ℝ :=
  0.5 * (1 + Real.cos θ ^ 2) * Real.cos (2 * φ) * Real.cos (2 * ψ)
    - Real.cos θ * Real.sin (2 * φ) * Real.sin (2 * ψ)

/-- The cross antenna pattern (line 82). -/
noncomputable def Fcross (θ φ ψ : ℝ) : ℝ :=
  0.5 * (1 + Real.cos θ ^ 2) * Real.cos (2 * φ) * Real.sin (2 * ψ)
    + Real.cos θ * Real.sin (2 * φ) * Real.cos (2 * ψ)

/-- The projection parameter (line 85):
`ω = sqrt(F₊²(1+cos²ι)²/4 + F×²cos²ι)`. -/
noncomputable def littleomega (θ φ ψ ι : ℝ) : ℝ :=
  Real.sqrt (Fplus θ φ ψ ^ 2 * (1 + Real.cos ι ^ 2) ^ 2 / 4
    + Fcross θ φ ψ ^ 2 * Real.cos ι ^ 2)

/-- `pdet.montecarlo_samples` (lines 72-87) with the drawn angle tuples
`(θ, φ, ψ, ι)` made explicit (the source draws them via `arccos` of a
uniform variate for the polar angles and uniformly on `[-π, π]` otherwise;
the theorems below hold for arbitrary real angles, a superset).  The source
returns the array when its length exceeds 1 and `littleomega[0]` otherwise;
indexing an empty array raises, which the embedding models with `none`. -/
noncomputable def montecarlo_samples (angles : List (ℝ × ℝ × ℝ × ℝ)) : Option (ℝ ⊕ List ℝ) :=
  let ws := angles.map (fun a => littleomega a.1 a.2.1 a.2.2.1 a.2.2.2)
  if 1 < ws.length then some (Sum.inr ws) else ws.head?.map Sum.inl

/-- The antenna patterns satisfy `F₊² + F×² ≤ 1` for all angles. -/
theorem Fplus_sq_add_Fcross_sq_le_one (θ φ ψ : ℝ) :
    Fplus θ φ ψ ^ 2 + Fcross θ φ ψ ^ 2 ≤ 1 := by
  have ht : Real.cos θ ^ 2 ≤ 1 := Real.cos_sq_le_one θ
  have hφ : Real.sin (2 * φ) ^ 2 + Real.cos (2 * φ) ^ 2 = 1 := Real.sin_sq_add_cos_sq _
  have hψ : Real.sin (2 * ψ) ^ 2 + Real.cos (2 * ψ) ^ 2 = 1 := Real.sin_sq_add_cos_sq _
  have key : Fplus θ φ ψ ^ 2 + Fcross θ φ ψ ^ 2
      = ((0.5 * (1 + Real.cos θ ^ 2) * Real.cos (2 * φ)) ^ 2
          + (Real.cos θ * Real.sin (2 * φ)) ^ 2)
        * (Real.sin (2 * ψ) ^ 2 + Real.cos (2 * ψ) ^ 2) := by
    simp only [Fplus, Fcross]
    ring
  rw [key, hψ, mul_one]
  have hA : (0.5 * (1 + Real.cos θ ^ 2) * Real.cos (2 * φ)) ^ 2 ≤ Real.cos (2 * φ) ^ 2 := by
    nlinarith [sq_nonneg (Real.cos (2 * φ)), sq_nonneg (Real.cos θ ^ 2 - 1),
      sq_nonneg (Real.cos θ), sq_nonneg (Real.cos (2 * φ) * (Real.cos θ ^ 2 - 1))]
  have hB : (Real.cos θ * Real.sin (2 * φ)) ^ 2 ≤ Real.sin (2 * φ) ^ 2 := by
    nlinarith [sq_nonneg (Real.sin (2 * φ)), ht]
  linarith

/-- The projection factor lies in `[0, 1]` for every angle tuple. -/
theorem littleomega_mem_unit (θ φ ψ ι : ℝ) :
    0 ≤ littleomega θ φ ψ ι ∧ littleomega θ φ ψ ι ≤ 1 := by
  refine ⟨Real.sqrt_nonneg _, Real.sqrt_le_one.mpr ?_⟩
  have hF := Fplus_sq_add_Fcross_sq_le_one θ φ ψ
  have hc2 : Real.cos ι ^ 2 ≤ 1 := Real.cos_sq_le_one ι
  have h4 : (1 + Real.cos ι ^ 2) ^ 2 / 4 ≤ 1 := by nlinarith [sq_nonneg (Real.cos ι)]
  have h4' : (0 : ℝ) ≤ (1 + Real.cos ι ^ 2) ^ 2 / 4 := by positivity
  nlinarith [mul_le_mul_of_nonneg_left h4 (sq_nonneg (Fplus θ φ ψ)),
    mul_le_mul_of_nonneg_left hc2 (sq_nonneg (Fcross θ φ ψ)),
    sq_nonneg (Fplus θ φ ψ), sq_nonneg (Fcross θ φ ψ)]

/-- Claim C6: for every `n ≥ 1` and every list of `n` sampled angle tuples,
`montecarlo_samples` returns exactly `n` projection-factor values, each in
`[0, 1]`; a single scalar when `n = 1` and a vector of length `n`
otherwise. -/
theorem c6_montecarlo_samples_bounded (n : ℕ) (hn : 1 ≤ n)
    (angles : List (ℝ × ℝ × ℝ × ℝ)) (hl : angles.length = n) :
    ∃ r, montecarlo_samples angles = some r
      ∧ (∀ w, r = Sum.inl w → n = 1 ∧ 0 ≤ w ∧ w ≤ 1)
      ∧ (∀ ws, r = Sum.inr ws → 1 < n ∧ ws.length = n ∧ ∀ w ∈ ws, 0 ≤ w ∧ w ≤ 1)
      ∧ (n = 1 → ∃ w, r = Sum.inl w)
      ∧ (1 < n → ∃ ws, r = Sum.inr ws) := by
  have hws : (angles.map (fun a => littleomega a.1 a.2.1 a.2.2.1 a.2.2.2)).length = n := by
    simp [hl]
  by_cases h1 : 1 < n
  · refine ⟨Sum.inr (angles.map (fun a => littleomega a.1 a.2.1 a.2.2.1 a.2.2.2)), ?_,
      ?_, ?_, ?_, ?_⟩
    · simp only [montecarlo_samples]
      rw [if_pos (by rw [hws]; exact h1)]
    · intro w hw; cases hw
    · intro ws hws'
      cases hws'
      refine ⟨h1, hws, ?_⟩
      intro w hw
      obtain ⟨a, -, rfl⟩ := List.mem_map.mp hw
      exact littleomega_mem_unit a.1 a.2.1 a.2.2.1 a.2.2.2
    · intro h; omega
    · intro _; exact ⟨_, rfl⟩
  · have hn1 : n = 1 := by omega
    subst hn1
    obtain ⟨a, rfl⟩ := List.length_eq_one.mp hl
    refine ⟨Sum.inl (littleomega a.1 a.2.1 a.2.2.1 a.2.2.2), ?_, ?_, ?_, ?_, ?_⟩
    · simp [montecarlo_samples]
    · intro w hw
      cases hw
      exact ⟨rfl, littleomega_mem_unit a.1 a.2.1 a.2.2.1 a.2.2.2⟩
    · intro ws hws'; cases hws'
    · intro _; exact ⟨_, rfl⟩
    · intro h; omega

/-- Witness for C6: one concrete angle tuple yields a single scalar
projection factor in `[0, 1]`. -/
theorem c6_montecarlo_samples_witness :
    ∃ r, montecarlo_samples [((0 : ℝ), (0 : ℝ), (0 : ℝ), (0 : ℝ))] = some r
      ∧ (∀ w, r = Sum.inl w → 1 = 1 ∧ 0 ≤ w ∧ w ≤ 1)
      ∧ (∀ ws, r = Sum.inr ws → 1 < 1 ∧ ws.length = 1 ∧ ∀ w ∈ ws, 0 ≤ w ∧ w ≤ 1)
      ∧ (1 = 1 → ∃ w, r = Sum.inl w)
      ∧ (1 < 1 → ∃ ws, r = Sum.inr ws) :=
  c6_montecarlo_samples_bounded 1 (by decide) [((0 : ℝ), (0 : ℝ), (0 : ℝ), (0 : ℝ))] rfl

/-- Ordering of consecutive knots of a piecewise-linear CDF: strictly
increasing abscissae, non-decreasing ordinates. -/
def knotOrd (p q : ℚ × ℚ) : Prop := p.1 < q.1 ∧ p.2 ≤ q.2

/-- Piecewise-linear interpolation through a list of knots, clamped to the
first ordinate left of the first knot and to the last ordinate right of the
last knot — the shape of `scipy.stats.rv_histogram`'s `_cdf` (linear
interpolation of the cumulative histogram over the bin edges, 0 below the
support and 1 above it). -/
def evalKnots : List (ℚ × ℚ) → ℚ → ℚ
  | [], _ => 0
  | [p], _ => p.2
  | p :: q :: rest, w =>
    if w ≤ p.1 then p.2
    else if w ≤ q.1 then p.2 + (q.2 - p.2) * (w - p.1) / (q.1 - p.1)
    else evalKnots (q :: rest) w

/-- Left of (or at) the first knot the interpolation is the first
ordinate. -/
theorem evalKnots_head (p : ℚ × ℚ) (l : List (ℚ × ℚ)) (w : ℚ) (hw : w ≤ p.1) :
    evalKnots (p :: l) w = p.2 := by
  cases l with
  | nil => rfl
  | cons q t => simp [evalKnots, if_pos hw]

/-- The interpolation through an ordered knot list never drops below the
first ordinate. -/
theorem evalKnots_ge_head :
    ∀ (l : List (ℚ × ℚ)) (p : ℚ × ℚ), List.Chain' knotOrd (p :: l) →
      ∀ w : ℚ, p.2 ≤ evalKnots (p :: l) w := by
  intro l
  induction l with
  | nil => intro p _ w; exact le_refl _
  | cons q t ih =>
    intro p hc w
    have hpq : knotOrd p q := (List.chain'_cons.mp hc).1
    have h' : List.Chain' knotOrd (q :: t) := (List.chain'_cons.mp hc).2
    simp only [evalKnots]
    by_cases h1 : w ≤ p.1
    · rw [if_pos h1]
    · rw [if_neg h1]
      by_cases h2 : w ≤ q.1
      · rw [if_pos h2]
        have hnum : 0 ≤ (q.2 - p.2) * (w - p.1) := by
          apply mul_nonneg
          · linarith [hpq.2]
          · linarith [not_le.mp h1]
        have : 0 ≤ (q.2 - p.2) * (w - p.1) / (q.1 - p.1) :=
          div_nonneg hnum (by linarith [hpq.1])
        linarith
      · rw [if_neg h2]
        exact le_trans hpq.2 (ih q h' w)

/-- Every knot before the appended last knot lies strictly left of it. -/
theorem knots_lt_last :
    ∀ (l : List (ℚ × ℚ)) (p : ℚ × ℚ), List.Chain' knotOrd (l ++ [p]) →
      ∀ a ∈ l, a.1 < p.1 := by
  intro l
  induction l with
  | nil => intro p _ a ha; cases ha
  | cons x t ih =>
    intro p h a ha
    have h' : List.Chain' knotOrd (t ++ [p]) := (List.chain'_cons'.mp h).2
    rcases List.mem_cons.mp ha with rfl | hat
    · cases t with
      | nil =>
        have hxp : knotOrd a p := (List.chain'_cons'.mp h).1 p rfl
        exact hxp.1
      | cons b t' =>
        have hxb : knotOrd a b := (List.chain'_cons'.mp h).1 b rfl
        exact lt_trans hxb.1 (ih p h' b (List.mem_cons_self b t'))
    · exact ih p h' a hat

/-- Right of (or at) the last knot the interpolation is the last
ordinate. -/
theorem evalKnots_last :
    ∀ (l : List (ℚ × ℚ)) (p : ℚ × ℚ), List.Chain' knotOrd (l ++ [p]) →
      ∀ w : ℚ, p.1 ≤ w → evalKnots (l ++ [p]) w = p.2 := by
  intro l
  induction l with
  | nil => intro p _ w _; rfl
  | cons a t ih =>
    intro p h w hw
    have hap : a.1 < p.1 := knots_lt_last (a :: t) p h a (List.mem_cons_self a t)
    have h' : List.Chain' knotOrd (t ++ [p]) := (List.chain'_cons'.mp h).2
    cases t with
    | nil =>
      show evalKnots (a :: [p]) w = p.2
      simp only [evalKnots]
      rw [if_neg (by linarith)]
      by_cases h2 : w ≤ p.1
      · rw [if_pos h2]
        have hwp : w = p.1 := le_antisymm h2 hw
        have hne : p.1 - a.1 ≠ 0 := ne_of_gt (by linarith)
        rw [hwp, mul_div_assoc, div_self hne, mul_one]
        ring
      · rw [if_neg h2]
    | cons b t' =>
      show evalKnots (a :: b :: (t' ++ [p])) w = p.2
      have hbp : b.1 < p.1 :=
        knots_lt_last (a :: b :: t') p h b (List.mem_cons_of_mem a (List.mem_cons_self b t'))
      simp only [evalKnots]
      rw [if_neg (by linarith), if_neg (by linarith)]
      exact ih p h' w hw

/-- The interpolation through an ordered knot list is monotone
(non-decreasing). -/
theorem evalKnots_mono :
    ∀ (l : List (ℚ × ℚ)), List.Chain' knotOrd l →
      ∀ w₁ w₂ : ℚ, w₁ ≤ w₂ → evalKnots l w₁ ≤ evalKnots l w₂ := by
  intro l
  induction l with
  | nil => intro _ w₁ w₂ _; exact le_refl _
  | cons p t ih =>
    intro hc w₁ w₂ hw
    cases t with
    | nil => exact le_refl _
    | cons q t' =>
      have hpq : knotOrd p q := (List.chain'_cons.mp hc).1
      have h' : List.Chain' knotOrd (q :: t') := (List.chain'_cons.mp hc).2
      by_cases h1 : w₁ ≤ p.1
      · rw [evalKnots_head p (q :: t') w₁ h1]
        exact evalKnots_ge_head (q :: t') p hc w₂
      · simp only [evalKnots]
        rw [if_neg h1, if_neg (by linarith : ¬ w₂ ≤ p.1)]
        by_cases h2 : w₁ ≤ q.1
        · rw [if_pos h2]
          by_cases h3 : w₂ ≤ q.1
          · rw [if_pos h3]
            have hd : (0 : ℚ) < q.1 - p.1 := by linarith [hpq.1]
            have hstep : (q.2 - p.2) * (w₁ - p.1) / (q.1 - p.1)
                ≤ (q.2 - p.2) * (w₂ - p.1) / (q.1 - p.1) := by
              gcongr
              linarith [hpq.1, hpq.2]
            linarith [hstep]
          · rw [if_neg h3]
            have hd : (0 : ℚ) < q.1 - p.1 := by linarith [hpq.1]
            have hfrac : (w₁ - p.1) / (q.1 - p.1) ≤ 1 :=
              (div_le_one hd).mpr (by linarith)
            have hseg : p.2 + (q.2 - p.2) * (w₁ - p.1) / (q.1 - p.1) ≤ q.2 := by
              have : (q.2 - p.2) * ((w₁ - p.1) / (q.1 - p.1)) ≤ (q.2 - p.2) * 1 :=
                mul_le_mul_of_nonneg_left hfrac (by linarith [hpq.2])
              rw [mul_div_assoc]
              linarith
            exact le_trans hseg (evalKnots_ge_head t' q h' w₂)
        · rw [if_neg h2, if_neg (by linarith : ¬ w₂ ≤ q.1)]
          exact ih h' w₁ w₂ hw

/-- Minimum of a sample list (`np.histogram`'s default lower range bound is
`samples.min()`); `0` for the empty list, which every theorem below
excludes. -/
def histLo (l : List ℚ) : ℚ :=
  match l with
  | [] => 0
  | x :: xs => xs.foldl min x

/-- Maximum of a sample list (`np.histogram`'s default upper range bound). -/
def histHi (l : List ℚ) : ℚ :=
  match l with
  | [] => 0
  | x :: xs => xs.foldl max x

theorem foldl_min_bounds :
    ∀ (xs : List ℚ) (a : ℚ), xs.foldl min a ≤ a ∧ ∀ x ∈ xs, xs.foldl min a ≤ x := by
  intro xs
  induction xs with
  | nil => intro a; exact ⟨le_refl a, by intro x hx; cases hx⟩
  | cons y ys ih =>
    intro a
    refine ⟨le_trans (ih (min a y)).1 (min_le_left a y), ?_⟩
    intro x hx
    rcases List.mem_cons.mp hx with rfl | hxy
    · exact le_trans (ih (min a x)).1 (min_le_right a x)
    · exact (ih (min a y)).2 x hxy

theorem foldl_max_bounds :
    ∀ (xs : List ℚ) (a : ℚ), a ≤ xs.foldl max a ∧ ∀ x ∈ xs, x ≤ xs.foldl max a := by
  intro xs
  induction xs with
  | nil => intro a; exact ⟨le_refl a, by intro x hx; cases hx⟩
  | cons y ys ih =>
    intro a
    refine ⟨le_trans (le_max_left a y) (ih (max a y)).1, ?_⟩
    intro x hx
    rcases List.mem_cons.mp hx with rfl | hxy
    · exact le_trans (le_max_right a x) (ih (max a x)).1
    · exact (ih (max a y)).2 x hxy

/-- Every sample is at least the observed minimum. -/
theorem histLo_le (l : List ℚ) : ∀ s ∈ l, histLo l ≤ s := by
  cases l with
  | nil => intro s hs; cases hs
  | cons x xs =>
    intro s hs
    rcases List.mem_cons.mp hs with rfl | hsx
    · exact (foldl_min_bounds xs s).1
    · exact (foldl_min_bounds xs x).2 s hsx

/-- Every sample is at most the observed maximum. -/
theorem le_histHi (l : List ℚ) : ∀ s ∈ l, s ≤ histHi l := by
  cases l with
  | nil => intro s hs; cases hs
  | cons x xs =>
    intro s hs
    rcases List.mem_cons.mp hs with rfl | hsx
    · exact (foldl_max_bounds xs s).1
    · exact (foldl_max_bounds xs x).2 s hsx

/-- Bin edge `j` of `np.histogram(samples, bins=n)`: `n+1` evenly spaced
edges from the observed minimum to the observed maximum,
`e_j = lo + (hi-lo)·j/n`. -/
def edge (lo hi : ℚ) (n j : ℕ) : ℚ := lo + (hi - lo) * j / n

/-- The cumulative bin count of the histogram at edge `j`: the number of
samples assigned to bins `0..j-1`.  `np.histogram` assigns a sample `s` to
the bin `[e_i, e_{i+1})` containing it (the final bin is closed on the
right), so for `j < n` the cumulative count at `e_j` is the number of
samples strictly below `e_j` (every sample is `≥ e_0 = lo`), and at the last
edge it is the total sample count. -/
def cumAt (samples : List ℚ) (lo hi : ℚ) (n j : ℕ) : ℚ :=
  if j < n then (samples.countP (fun s => decide (s < edge lo hi n j)) : ℚ)
  else (samples.length : ℚ)

/-- Knot `j` of the piecewise-linear CDF of
`scipy.stats.rv_histogram(np.histogram(samples, bins=n))`: abscissa `e_j`,
ordinate the normalized cumulative count at `e_j`. -/
def sfKnot (samples : List ℚ) (n j : ℕ) : ℚ × ℚ :=
  (edge (histLo samples) (histHi samples) n j,
    cumAt samples (histLo samples) (histHi samples) n j / (samples.length : ℚ))

/-- All `n+1` knots of the piecewise-linear CDF. -/
def sfKnots (samples : List ℚ) (n : ℕ) : List (ℚ × ℚ) :=
  (List.range (n + 1)).map (sfKnot samples n)

/-- The CDF of `scipy.stats.rv_histogram` on the histogram of `samples` with
`n` bins (lines 100-101): piecewise-linear through the knots, 0 below the
support, 1 above it. -/
def rv_histogram_cdf (samples : List ℚ) (n : ℕ) (w : ℚ) : ℚ :=
  evalKnots (sfKnots samples n) w

/-- The survival function `hist_dist.sf` stored by `pdet.interpolate`
(line 106): `sf(w) = 1 - cdf(w)`. -/
def rv_histogram_sf (samples : List ℚ) (n : ℕ) (w : ℚ) : ℚ :=
  1 - rv_histogram_cdf samples n w

/-- Consecutive edges are strictly increasing (nondegenerate support,
`n ≥ 1`). -/
theorem edge_lt_succ {lo hi : ℚ} {n : ℕ} (hlh : lo < hi) (hn : 1 ≤ n) (m : ℕ) :
    edge lo hi n m < edge lo hi n (m + 1) := by
  have hn0 : (0 : ℚ) < (n : ℚ) := by exact_mod_cast Nat.lt_of_lt_of_le Nat.zero_lt_one hn
  have hml : ((m : ℕ) : ℚ) < ((m + 1 : ℕ) : ℚ) := by exact_mod_cast Nat.lt_succ_self m
  have hdpos : (0 : ℚ) < hi - lo := by linarith
  have hmul : (hi - lo) * (m : ℚ) < (hi - lo) * ((m + 1 : ℕ) : ℚ) :=
    mul_lt_mul_of_pos_left hml hdpos
  exact add_lt_add_left (div_lt_div_of_pos_right hmul hn0) lo

/-- The knots of the histogram CDF are ordered: strictly increasing edges,
non-decreasing normalized cumulative counts. -/
theorem sfKnots_chain (samples : List ℚ) (n : ℕ) (hn : 1 ≤ n)
    (hlh : histLo samples < histHi samples) :
    List.Chain' knotOrd (sfKnots samples n) := by
  rw [sfKnots]
  apply (List.chain'_map (sfKnot samples n)).mpr
  apply (List.chain'_range_succ _ n).mpr
  intro m hm
  constructor
  · exact edge_lt_succ hlh hn m
  · show cumAt samples (histLo samples) (histHi samples) n m / (samples.length : ℚ)
      ≤ cumAt samples (histLo samples) (histHi samples) n (m + 1) / (samples.length : ℚ)
    apply div_le_div_of_nonneg_right ?_ (Nat.cast_nonneg _)
    by_cases hm1 : m + 1 < n
    · rw [cumAt, cumAt, if_pos hm, if_pos hm1]
      have hedge : edge (histLo samples) (histHi samples) n m
          ≤ edge (histLo samples) (histHi samples) n (m + 1) :=
        le_of_lt (edge_lt_succ hlh hn m)
      have hcount : samples.countP
            (fun s => decide (s < edge (histLo samples) (histHi samples) n m))
          ≤ samples.countP
            (fun s => decide (s < edge (histLo samples) (histHi samples) n (m + 1))) := by
        apply List.countP_mono_left
        intro s _ h
        simp only [decide_eq_true_eq] at h ⊢
        linarith
      exact_mod_cast hcount
    · rw [cumAt, cumAt, if_pos hm, if_neg hm1]
      exact_mod_cast List.countP_le_length _

/-- Claim C5: the survival function built by `pdet.interpolate` from the
histogram of observed samples (`rv_histogram(np.histogram(samples, n)).sf`)
is non-increasing everywhere, equals 1 at and below the minimum observed
sample, and equals 0 at and above the maximum observed sample; in
particular out-of-range queries saturate at 1 or 0 and never raise (the
model is a total function, matching the clamping of the interpolated CDF).
Hypotheses: the sample list is nonempty with nondegenerate range (the
histogram bins have positive width) and at least one bin. -/
theorem c5_sf_monotone_saturating (samples : List ℚ) (n : ℕ) (hne : samples ≠ [])
    (hn : 1 ≤ n) (hlh : histLo samples < histHi samples) :
    (∀ w₁ w₂ : ℚ, w₁ ≤ w₂ → rv_histogram_sf samples n w₂ ≤ rv_histogram_sf samples n w₁)
    ∧ (∀ w : ℚ, w ≤ histLo samples → rv_histogram_sf samples n w = 1)
    ∧ (∀ w : ℚ, histHi samples ≤ w → rv_histogram_sf samples n w = 0) := by
  have hchain := sfKnots_chain samples n hn hlh
  have hlen : (samples.length : ℚ) ≠ 0 := by
    have : samples.length ≠ 0 := fun h => hne (List.length_eq_zero.mp h)
    exact_mod_cast this
  refine ⟨?_, ?_, ?_⟩
  · intro w₁ w₂ h
    have := evalKnots_mono _ hchain w₁ w₂ h
    simp only [rv_histogram_sf, rv_histogram_cdf]
    linarith
  · intro w hw
    have hdecomp : sfKnots samples n
        = sfKnot samples n 0
          :: (List.range n).map (fun j => sfKnot samples n (j + 1)) := by
      rw [sfKnots, List.range_succ_eq_map n, List.map_cons, List.map_map]
      rfl
    have hedge0 : (sfKnot samples n 0).1 = histLo samples := by
      simp [sfKnot, edge]
    have hcum0 : (sfKnot samples n 0).2 = 0 := by
      have hc : cumAt samples (histLo samples) (histHi samples) n 0 = 0 := by
        rw [cumAt, if_pos (by omega : 0 < n)]
        have : samples.countP
            (fun s => decide (s < edge (histLo samples) (histHi samples) n 0)) = 0 := by
          apply List.countP_eq_zero.mpr
          intro s hs
          simp only [decide_eq_true_eq, not_lt]
          have : edge (histLo samples) (histHi samples) n 0 = histLo samples := by
            simp [edge]
          rw [this]
          exact histLo_le samples s hs
        rw [this]
        norm_num
      simp [sfKnot, hc]
    simp only [rv_histogram_sf, rv_histogram_cdf]
    rw [hdecomp, evalKnots_head _ _ w (by rw [hedge0]; exact hw), hcum0]
    ring
  · intro w hw
    have hdecomp2 : sfKnots samples n
        = (List.range n).map (sfKnot samples n) ++ [sfKnot samples n n] := by
      rw [sfKnots, List.range_succ, List.map_append]
      rfl
    have hch2 : List.Chain' knotOrd
        ((List.range n).map (sfKnot samples n) ++ [sfKnot samples n n]) := by
      rw [← hdecomp2]; exact hchain
    have hedgen : (sfKnot samples n n).1 = histHi samples := by
      have hn0 : ((n : ℕ) : ℚ) ≠ 0 := Nat.cast_ne_zero.mpr (by omega)
      show edge (histLo samples) (histHi samples) n n = histHi samples
      rw [edge, mul_div_assoc, div_self hn0, mul_one]
      ring
    have hcumn : (sfKnot samples n n).2 = 1 := by
      have hc : cumAt samples (histLo samples) (histHi samples) n n
          = (samples.length : ℚ) := by
        rw [cumAt, if_neg (lt_irrefl n)]
      simp [sfKnot, hc, div_self hlen]
    simp only [rv_histogram_sf, rv_histogram_cdf]
    rw [hdecomp2, evalKnots_last _ _ hch2 w (by rw [hedgen]; exact hw), hcumn]
    ring

/-- Witness for C5: the survival function of the histogram of the concrete
samples `[0, 1]` with 2 bins is 1 at `-1` (below the minimum) and 0 at `2`
(above the maximum). -/
theorem c5_sf_witness :
    rv_histogram_sf [0, 1] 2 (-1) = 1 ∧ rv_histogram_sf [0, 1] 2 2 = 0 :=
  ⟨(c5_sf_monotone_saturating [0, 1] 2 (List.cons_ne_nil 0 [1]) (by decide)
      (by norm_num [histLo, histHi, min_def, max_def])).2.1 (-1)
      (by norm_num [histLo, min_def]),
   (c5_sf_monotone_saturating [0, 1] 2 (List.cons_ne_nil 0 [1]) (by decide)
      (by norm_num [histLo, histHi, min_def, max_def])).2.2 2
      (by norm_num [histHi, max_def])⟩
